import Mathlib

/-
Shallow embedding of the WLC (worm-like chain) DNA visualization
(src/src/App.js).  JavaScript numbers are modelled by an extended-real
type JSNum: an exact real payload for finite values plus positive
infinity, negative infinity and NaN, with IEEE-754-style propagation
for the operations the program uses (the finite arithmetic itself is
exact, i.e. rounding is idealized away; the -0/+0 distinction is not
tracked, which none of the program's observable behaviour here depends
on).  THREE.Vector3 becomes the structure Vec3; the generator's for
loop becomes the primitive recursion wlcIter over the loop counter.
-/

namespace WLC

open Classical

/-- A JavaScript number: a finite (exact) real, +Infinity, -Infinity or NaN. -/
inductive JSNum where
  | fin : ℝ → JSNum
  | inf : JSNum
  | ninf : JSNum
  | nan : JSNum

open JSNum

/-- JavaScript addition on numbers (IEEE-754 special-value rules). -/
noncomputable def jsAdd : JSNum → JSNum → JSNum
  | fin a, fin b => fin (a + b)
  | fin _, inf => inf
  | fin _, ninf => ninf
  | inf, fin _ => inf
  | ninf, fin _ => ninf
  | inf, inf => inf
  | ninf, ninf => ninf
  | inf, ninf => nan
  | ninf, inf => nan
  | nan, _ => nan
  | _, nan => nan

/-- JavaScript multiplication on numbers (IEEE-754 special-value rules;
zero times an infinity is NaN). -/
noncomputable def jsMul : JSNum → JSNum → JSNum
  | fin a, fin b => fin (a * b)
  | fin a, inf => if 0 < a then inf else if a < 0 then ninf else nan
  | fin a, ninf => if 0 < a then ninf else if a < 0 then inf else nan
  | inf, fin b => if 0 < b then inf else if b < 0 then ninf else nan
  | ninf, fin b => if 0 < b then ninf else if b < 0 then inf else nan
  | inf, inf => inf
  | ninf, ninf => inf
  | inf, ninf => ninf
  | ninf, inf => ninf
  | nan, _ => nan
  | _, nan => nan

/-- JavaScript division on numbers: a nonzero finite number divided by
zero is a signed infinity, zero divided by zero is NaN. -/
noncomputable def jsDiv : JSNum → JSNum → JSNum
  | fin a, fin b =>
      if b = 0 then (if a = 0 then nan else if 0 < a then inf else ninf)
      else fin (a / b)
  | fin _, inf => fin 0
  | fin _, ninf => fin 0
  | inf, fin b => if b < 0 then ninf else inf
  | ninf, fin b => if b < 0 then inf else ninf
  | inf, inf => nan
  | inf, ninf => nan
  | ninf, inf => nan
  | ninf, ninf => nan
  | nan, _ => nan
  | _, nan => nan

/-- JavaScript subtraction on numbers. -/
noncomputable def jsSub : JSNum → JSNum → JSNum
  | fin a, fin b => fin (a - b)
  | fin _, inf => ninf
  | fin _, ninf => inf
  | inf, fin _ => inf
  | ninf, fin _ => ninf
  | inf, ninf => inf
  | ninf, inf => ninf
  | inf, inf => nan
  | ninf, ninf => nan
  | nan, _ => nan
  | _, nan => nan

/-- Math.sqrt: NaN on negative (and -Infinity) arguments. -/
noncomputable def jsSqrt : JSNum → JSNum
  | fin a => if a < 0 then nan else fin (Real.sqrt a)
  | inf => inf
  | ninf => nan
  | nan => nan

/-- Math.pow with exponent 0.5 (the source writes x ** 0.5): agrees with
Math.sqrt on finite and +Infinity arguments, but pow(-Infinity, 0.5) is
+Infinity. -/
noncomputable def jsPowHalf : JSNum → JSNum
  | fin a => if a < 0 then nan else fin (Real.sqrt a)
  | inf => inf
  | ninf => inf
  | nan => nan

/-- Math.sin. -/
noncomputable def jsSin : JSNum → JSNum
  | fin a => fin (Real.sin a)
  | _ => nan

/-- Math.cos. -/
noncomputable def jsCos : JSNum → JSNum
  | fin a => fin (Real.cos a)
  | _ => nan

/-- JavaScript falsiness of a number (used by the || 1 guard inside
THREE.Vector3.normalize): 0 and NaN are falsy. -/
noncomputable def jsFalsy : JSNum → Bool
  | fin a => if a = 0 then true else false
  | nan => true
  | _ => false

/-- Whether a JavaScript number is finite (neither an infinity nor NaN). -/
def jsFinite : JSNum → Bool
  | fin _ => true
  | _ => false

/-- THREE.Vector3. -/
@[ext]
structure Vec3 where
  x : JSNum
  y : JSNum
  z : JSNum

/-- Componentwise vector addition (THREE.Vector3.add). -/
noncomputable def vadd (a b : Vec3) : Vec3 :=
  ⟨jsAdd a.x b.x, jsAdd a.y b.y, jsAdd a.z b.z⟩

/-- Componentwise vector subtraction (used only to state properties about
segment vectors points[i] - points[i-1]). -/
noncomputable def vsub (a b : Vec3) : Vec3 :=
  ⟨jsSub a.x b.x, jsSub a.y b.y, jsSub a.z b.z⟩

/-- THREE.Vector3.multiplyScalar. -/
noncomputable def multiplyScalar (v : Vec3) (s : JSNum) : Vec3 :=
  ⟨jsMul v.x s, jsMul v.y s, jsMul v.z s⟩

/-- THREE.Vector3.length: sqrt(x*x + y*y + z*z). -/
noncomputable def vlength (v : Vec3) : JSNum :=
  jsSqrt (jsAdd (jsAdd (jsMul v.x v.x) (jsMul v.y v.y)) (jsMul v.z v.z))

/-- THREE.Vector3.divideScalar(s) = multiplyScalar(1 / s). -/
noncomputable def divideScalar (v : Vec3) (s : JSNum) : Vec3 :=
  multiplyScalar v (jsDiv (fin 1) s)

/-- THREE.Vector3.normalize: divideScalar(length() || 1). -/
noncomputable def normalize (v : Vec3) : Vec3 :=
  divideScalar v (if jsFalsy (vlength v) then fin 1 else vlength v)

/-- The zero vector (also the origin point). -/
def vzero : Vec3 := ⟨fin 0, fin 0, fin 0⟩

/-- All three components are finite. -/
def vecFinite (v : Vec3) : Bool :=
  jsFinite v.x && jsFinite v.y && jsFinite v.z

/-- The thermal-fluctuation scale computed at the top of calculateWLCChain:
(temperature / persistenceLength) ** 0.5 * noiseLevel. -/
noncomputable def thermalOf (temperature persistenceLength noiseLevel : JSNum) : JSNum :=
  jsMul (jsPowHalf (jsDiv temperature persistenceLength)) noiseLevel

/-- The fluctuation vector built at loop step i of calculateWLCChain:
((sin(time + i) * 0.5) * tf, (cos(time + i) * 0.5) * tf, (sin(time * 0.5) * 0.5) * tf). -/
noncomputable def fluctuationAt (time tf : JSNum) (i : ℕ) : Vec3 :=
  ⟨jsMul (jsMul (jsSin (jsAdd time (fin (i : ℝ)))) (fin 0.5)) tf,
   jsMul (jsMul (jsCos (jsAdd time (fin (i : ℝ)))) (fin 0.5)) tf,
   jsMul (jsMul (jsSin (jsMul time (fin 0.5))) (fin 0.5)) tf⟩

/-- The loop state of calculateWLCChain: the points array built so far,
the running direction vector, and the running (mutated-in-place) force
vector. -/
structure WLCState where
  points : List Vec3
  direction : Vec3
  force : Vec3

/-- One iteration of the loop body of calculateWLCChain at loop counter i:
  direction.add(fluctuation).normalize();
  direction.add(force.multiplyScalar(1 / bendingRigidity));   -- force is mutated in place
  newPoint = points[i - 1] + direction; points.push(newPoint). -/
noncomputable def wlcStep (time tf bendingRigidity : JSNum) (i : ℕ) (s : WLCState) : WLCState :=
  let dir1 := normalize (vadd s.direction (fluctuationAt time tf i))
  let force1 := multiplyScalar s.force (jsDiv (fin 1) bendingRigidity)
  let dir2 := vadd dir1 force1
  let newPoint := vadd (s.points.getD (i - 1) vzero) dir2
  ⟨s.points ++ [newPoint], dir2, force1⟩

/-- The state after running the loop body for counters 1, 2, ..., i,
starting from points = [[0,0,0]], direction = (1,0,0), force = externalForce. -/
noncomputable def wlcIter (time tf bendingRigidity : JSNum) (externalForce : Vec3) : ℕ → WLCState
  | 0 => ⟨[vzero], ⟨fin 1, fin 0, fin 0⟩, externalForce⟩
  | i + 1 => wlcStep time tf bendingRigidity (i + 1) (wlcIter time tf bendingRigidity externalForce i)

/-- calculateWLCChain from src/src/App.js: runs the loop for
i = 1 .. length-1 and returns the points array. -/
noncomputable def calculateWLCChain (length : ℕ)
    (persistenceLength temperature time bendingRigidity noiseLevel : JSNum)
    (externalForce : Vec3) : List Vec3 :=
  (wlcIter time (thermalOf temperature persistenceLength noiseLevel) bendingRigidity
    externalForce (length - 1)).points

/-- The vector handed to normalize at loop step i (i ≥ 1): the running
direction after i-1 completed iterations plus the step-i fluctuation. -/
noncomputable def stepInput (time tf bendingRigidity : JSNum) (externalForce : Vec3) (i : ℕ) : Vec3 :=
  vadd (wlcIter time tf bendingRigidity externalForce (i - 1)).direction
    (fluctuationAt time tf i)

/-- The simulation parameters held in App's state (lines 70-75 of
src/src/App.js give the defaults). -/
structure SimParams where
  length : ℕ
  persistenceLength : JSNum
  temperature : JSNum
  bendingRigidity : JSNum
  noiseLevel : JSNum
  externalForce : Vec3

/-- The default parameters created at startup. -/
noncomputable def defaultParams : SimParams :=
  ⟨100, fin 50, fin 300, fin 1, fin 1, vzero⟩

/-- The mutable state of the running app: the parameter store, the
accumulated animation time (timeRef.current in DNAModel) and the last
published points. -/
structure AppState where
  params : SimParams
  time : ℝ
  points : List Vec3

/-- Fresh start: default parameters, time 0, no points published yet. -/
noncomputable def initialState : AppState := ⟨defaultParams, 0, []⟩

/-- One animation frame (the useFrame callback in DNAModel): increment the
accumulated time by the fixed step 0.01, then recompute and publish the
chain at the new time with the current parameters. -/
noncomputable def frameTick (s : AppState) : AppState :=
  let t := s.time + 0.01
  ⟨s.params, t,
   calculateWLCChain s.params.length s.params.persistenceLength s.params.temperature
     (fin t) s.params.bendingRigidity s.params.noiseLevel s.params.externalForce⟩

/-- A parameter edit from the sliders: replaces the parameter store and
touches nothing else (in particular not the time accumulator). -/
noncomputable def setParams (p : SimParams) (s : AppState) : AppState :=
  ⟨p, s.time, s.points⟩

/-- An interaction event: either a scheduled animation frame or a
parameter edit. -/
inductive UIEvent where
  | frame : UIEvent
  | edit : SimParams → UIEvent

/-- Apply one event to the app state. -/
noncomputable def applyEvent (s : AppState) (e : UIEvent) : AppState :=
  match e with
  | UIEvent.frame => frameTick s
  | UIEvent.edit p => setParams p s

/-- Run a sequence of events from a fresh start. -/
noncomputable def runEvents (es : List UIEvent) : AppState :=
  es.foldl applyEvent initialState

/-- The number of frame ticks in an event sequence. -/
def countFrames : List UIEvent → ℕ
  | [] => 0
  | UIEvent.frame :: es => countFrames es + 1
  | UIEvent.edit _ :: es => countFrames es

/-! Basic evaluation lemmas for the JavaScript-number operations. -/

@[simp]
theorem jsAdd_fin_fin (a b : ℝ) : jsAdd (fin a) (fin b) = fin (a + b) := rfl

@[simp]
theorem jsMul_fin_fin (a b : ℝ) : jsMul (fin a) (fin b) = fin (a * b) := rfl

@[simp]
theorem jsSub_fin_fin (a b : ℝ) : jsSub (fin a) (fin b) = fin (a - b) := rfl

@[simp]
theorem jsSin_fin (a : ℝ) : jsSin (fin a) = fin (Real.sin a) := rfl

@[simp]
theorem jsCos_fin (a : ℝ) : jsCos (fin a) = fin (Real.cos a) := rfl

theorem jsDiv_fin_fin (a b : ℝ) (hb : b ≠ 0) : jsDiv (fin a) (fin b) = fin (a / b) := by
  simp [jsDiv, hb]

theorem jsSqrt_fin (a : ℝ) (ha : 0 ≤ a) : jsSqrt (fin a) = fin (Real.sqrt a) := by
  simp [jsSqrt, not_lt.mpr ha]

theorem jsPowHalf_fin (a : ℝ) (ha : 0 ≤ a) : jsPowHalf (fin a) = fin (Real.sqrt a) := by
  simp [jsPowHalf, not_lt.mpr ha]

@[simp]
theorem jsFinite_fin (a : ℝ) : jsFinite (fin a) = true := rfl

theorem jsAdd_finite_iff (a b : JSNum) :
    jsFinite (jsAdd a b) = true ↔ jsFinite a = true ∧ jsFinite b = true := by
  cases a <;> cases b <;> simp [jsAdd, jsFinite]

theorem jsMul_finite_iff (a b : JSNum) :
    jsFinite (jsMul a b) = true ↔ jsFinite a = true ∧ jsFinite b = true := by
  cases a <;> cases b <;> simp [jsMul, jsFinite] <;> split_ifs <;> simp [jsFinite]

/-- Canonical form of a finite vector. -/
theorem vecFinite_iff (v : Vec3) :
    vecFinite v = true ↔ ∃ a b c : ℝ, v = ⟨fin a, fin b, fin c⟩ := by
  obtain ⟨x, y, z⟩ := v
  cases x <;> cases y <;> cases z <;>
    simp [vecFinite, jsFinite, Vec3.ext_iff]

@[simp]
theorem vecFinite_mk_fin (a b c : ℝ) : vecFinite ⟨fin a, fin b, fin c⟩ = true := rfl

/-- THREE.Vector3.length on a finite vector. -/
theorem vlength_fin (a b c : ℝ) :
    vlength ⟨fin a, fin b, fin c⟩ = fin (Real.sqrt (a * a + b * b + c * c)) := by
  have h : (0 : ℝ) ≤ a * a + b * b + c * c :=
    add_nonneg (add_nonneg (mul_self_nonneg a) (mul_self_nonneg b)) (mul_self_nonneg c)
  simp [vlength, jsSqrt_fin _ h]

/-- normalize on a finite nonzero vector: each component is divided by the
(positive) Euclidean length. -/
theorem normalize_fin (a b c : ℝ) (h : ¬(a = 0 ∧ b = 0 ∧ c = 0)) :
    normalize ⟨fin a, fin b, fin c⟩ =
      ⟨fin (a * (1 / Real.sqrt (a * a + b * b + c * c))),
       fin (b * (1 / Real.sqrt (a * a + b * b + c * c))),
       fin (c * (1 / Real.sqrt (a * a + b * b + c * c)))⟩ := by
  have hS : 0 < a * a + b * b + c * c := by
    rcases not_and_or.mp h with ha | h2
    · have : 0 < a * a := mul_self_pos.mpr ha
      nlinarith [mul_self_nonneg b, mul_self_nonneg c]
    · rcases not_and_or.mp h2 with hb | hc
      · have : 0 < b * b := mul_self_pos.mpr hb
        nlinarith [mul_self_nonneg a, mul_self_nonneg c]
      · have : 0 < c * c := mul_self_pos.mpr hc
        nlinarith [mul_self_nonneg a, mul_self_nonneg b]
  have hL : 0 < Real.sqrt (a * a + b * b + c * c) := Real.sqrt_pos.mpr hS
  have hL0 : Real.sqrt (a * a + b * b + c * c) ≠ 0 := ne_of_gt hL
  simp [normalize, vlength_fin, jsFalsy, hL0, divideScalar, multiplyScalar,
    jsDiv_fin_fin _ _ hL0, one_div]

/-- normalize preserves finiteness of all components. -/
theorem normalize_finite (v : Vec3) (hv : vecFinite v = true) :
    vecFinite (normalize v) = true := by
  obtain ⟨a, b, c, rfl⟩ := (vecFinite_iff v).mp hv
  by_cases h : a = 0 ∧ b = 0 ∧ c = 0
  · obtain ⟨rfl, rfl, rfl⟩ := h
    have hz : Real.sqrt ((0 : ℝ) * 0 + 0 * 0 + 0 * 0) = 0 := by
      simp
    simp [normalize, vlength_fin, hz, jsFalsy, divideScalar, multiplyScalar,
      jsDiv_fin_fin (1 : ℝ) 1 one_ne_zero]
  · rw [normalize_fin a b c h]
    simp

/-! Structural lemmas about the generator loop. -/

/-- One loop iteration appends exactly the point points[i-1] + direction
(with direction the post-force running direction of that iteration). -/
theorem wlcStep_points_eq (t tf b : JSNum) (i : ℕ) (s : WLCState) :
    (wlcStep t tf b i s).points =
      s.points ++ [vadd (s.points.getD (i - 1) vzero) ((wlcStep t tf b i s).direction)] := rfl

theorem wlcIter_succ (t tf b : JSNum) (f : Vec3) (i : ℕ) :
    wlcIter t tf b f (i + 1) = wlcStep t tf b (i + 1) (wlcIter t tf b f i) := rfl

theorem wlcIter_points_length (t tf b : JSNum) (f : Vec3) (i : ℕ) :
    (wlcIter t tf b f i).points.length = i + 1 := by
  induction i with
  | zero => rfl
  | succ n ih =>
    rw [wlcIter_succ, wlcStep_points_eq, List.length_append, ih]
    rfl

theorem wlcIter_points_succ (t tf b : JSNum) (f : Vec3) (i : ℕ) :
    (wlcIter t tf b f (i + 1)).points =
      (wlcIter t tf b f i).points ++
        [vadd ((wlcIter t tf b f i).points.getD i vzero)
          ((wlcIter t tf b f (i + 1)).direction)] := by
  rw [wlcIter_succ, wlcStep_points_eq]
  simp

/-- Already-built points are stable under further loop iterations. -/
theorem wlcIter_getD_stable (t tf b : JSNum) (f : Vec3) (i j : ℕ) (h : j ≤ i) :
    (wlcIter t tf b f i).points.getD j vzero =
      (wlcIter t tf b f j).points.getD j vzero := by
  induction i with
  | zero =>
    have hj : j = 0 := Nat.le_zero.mp h
    subst hj
    rfl
  | succ n ih =>
    rcases Nat.lt_or_ge j (n + 1) with hj | hj
    · rw [wlcIter_points_succ, List.getD_append]
      · exact ih (Nat.lt_succ_iff.mp hj)
      · rw [wlcIter_points_length]
        exact hj
    · have hj2 : j = n + 1 := le_antisymm h hj
      subst hj2
      rfl

/-- The point appended at step i+1 is the previous last point plus the
post-force direction of step i+1. -/
theorem wlcIter_getD_succ (t tf b : JSNum) (f : Vec3) (i : ℕ) :
    (wlcIter t tf b f (i + 1)).points.getD (i + 1) vzero =
      vadd ((wlcIter t tf b f i).points.getD i vzero)
        ((wlcIter t tf b f (i + 1)).direction) := by
  rw [wlcIter_points_succ, List.getD_append_right]
  · rw [wlcIter_points_length]
    simp
  · rw [wlcIter_points_length]

theorem wlcIter_head (t tf b : JSNum) (f : Vec3) (i : ℕ) :
    (wlcIter t tf b f i).points.head? = some vzero := by
  induction i with
  | zero => rfl
  | succ n ih =>
    rw [wlcIter_points_succ, List.head?_append_of_ne_nil, ih]
    intro hnil
    have := wlcIter_points_length t tf b f n
    rw [hnil] at this
    simp at this

/-- The segment relation inside the returned chain: for 1 ≤ i < n,
points[i] = points[i-1] + (post-force direction of step i). -/
theorem chain_segment_eq (n : ℕ) (pl temp t b nl : JSNum) (f : Vec3) (i : ℕ)
    (hi : 1 ≤ i) (hin : i < n) :
    (calculateWLCChain n pl temp t b nl f).getD i vzero =
      vadd ((calculateWLCChain n pl temp t b nl f).getD (i - 1) vzero)
        ((wlcIter t (thermalOf temp pl nl) b f i).direction) := by
  obtain ⟨j, rfl⟩ : ∃ j, i = j + 1 := ⟨i - 1, (Nat.succ_pred_eq_of_pos hi).symm⟩
  unfold calculateWLCChain
  have h1 : j + 1 ≤ n - 1 := by omega
  have h2 : j ≤ n - 1 := by omega
  simp only [Nat.add_sub_cancel]
  rw [wlcIter_getD_stable _ _ _ _ _ _ h1, wlcIter_getD_stable _ _ _ _ _ _ h2]
  rw [wlcIter_getD_succ]

/-! The running force vector. -/

theorem wlcStep_force (t tf b : JSNum) (i : ℕ) (s : WLCState) :
    (wlcStep t tf b i s).force = multiplyScalar s.force (jsDiv (fin 1) b) := rfl

theorem wlcStep_direction (t tf b : JSNum) (i : ℕ) (s : WLCState) :
    (wlcStep t tf b i s).direction =
      vadd (normalize (vadd s.direction (fluctuationAt t tf i))) ((wlcStep t tf b i s).force) := rfl

/-- The force vector is scaled in place by 1/b once per iteration, so after
i iterations it is the original force times (1/b)^i. -/
theorem wlcIter_force (t tf : JSNum) (b fx fy fz : ℝ) (hb : b ≠ 0) (i : ℕ) :
    (wlcIter t tf (fin b) ⟨fin fx, fin fy, fin fz⟩ i).force =
      ⟨fin (fx * (1 / b) ^ i), fin (fy * (1 / b) ^ i), fin (fz * (1 / b) ^ i)⟩ := by
  induction i with
  | zero => simp [wlcIter]
  | succ n ih =>
    rw [wlcIter_succ, wlcStep_force, ih, jsDiv_fin_fin _ _ hb, multiplyScalar]
    simp only [jsMul_fin_fin, Vec3.mk.injEq, fin.injEq]
    refine ⟨?_, ?_, ?_⟩ <;> (rw [pow_succ]; ring)

theorem wlcIter_force_zero (t tf : JSNum) (b : ℝ) (hb : b ≠ 0) (i : ℕ) :
    (wlcIter t tf (fin b) vzero i).force = vzero := by
  have h := wlcIter_force t tf b 0 0 0 hb i
  simpa [vzero] using h

/-! Zero thermal scale and zero fluctuation. -/

theorem thermalOf_zero_noise (temp pl : ℝ) (hpl : pl ≠ 0) (hr : 0 ≤ temp / pl) :
    thermalOf (fin temp) (fin pl) (fin 0) = fin 0 := by
  rw [thermalOf, jsDiv_fin_fin _ _ hpl, jsPowHalf_fin _ hr]
  simp

theorem fluctuationAt_zero (t : ℝ) (i : ℕ) :
    fluctuationAt (fin t) (fin 0) i = vzero := by
  simp [fluctuationAt, vzero]

/-- With a zero thermal scale and a finite time, a loop iteration does not
depend on the time value at all. -/
theorem wlcStep_time_irrel (t t2 : ℝ) (b : JSNum) (i : ℕ) (s : WLCState) :
    wlcStep (fin t) (fin 0) b i s = wlcStep (fin t2) (fin 0) b i s := by
  unfold wlcStep
  rw [fluctuationAt_zero, fluctuationAt_zero]

theorem wlcIter_time_irrel (t t2 : ℝ) (b : JSNum) (f : Vec3) (i : ℕ) :
    wlcIter (fin t) (fin 0) b f i = wlcIter (fin t2) (fin 0) b f i := by
  induction i with
  | zero => rfl
  | succ n ih => rw [wlcIter_succ, wlcIter_succ, ih, wlcStep_time_irrel t t2]

/-! The ideal straight-line run: zero thermal scale, bendingRigidity 1,
zero external force. -/

theorem normalize_e1 : normalize ⟨fin 1, fin 0, fin 0⟩ = ⟨fin 1, fin 0, fin 0⟩ := by
  rw [normalize_fin 1 0 0 (by norm_num)]
  norm_num

theorem wlcStep_ideal (t : ℝ) (i : ℕ) (pts : List Vec3) :
    wlcStep (fin t) (fin 0) (fin 1) i ⟨pts, ⟨fin 1, fin 0, fin 0⟩, vzero⟩ =
      ⟨pts ++ [vadd (pts.getD (i - 1) vzero) ⟨fin 1, fin 0, fin 0⟩],
       ⟨fin 1, fin 0, fin 0⟩, vzero⟩ := by
  unfold wlcStep
  rw [fluctuationAt_zero, jsDiv_fin_fin 1 1 one_ne_zero]
  have hv : vadd ⟨fin 1, fin 0, fin 0⟩ vzero = ⟨fin 1, fin 0, fin 0⟩ := by
    simp [vadd, vzero]
  rw [hv, normalize_e1]
  have hf : multiplyScalar vzero (fin (1 / 1)) = vzero := by
    simp [multiplyScalar, vzero]
  rw [hf]
  simp [hv]

/-! Finiteness and non-finiteness propagation. -/

theorem jsFinite_iff (a : JSNum) : jsFinite a = true ↔ ∃ r : ℝ, a = fin r := by
  cases a <;> simp [jsFinite]

theorem jsDiv_one_zero : jsDiv (fin 1) (fin 0) = inf := by
  norm_num [jsDiv]

theorem jsMul_inf_nonfinite (a : JSNum) : jsFinite (jsMul a inf) = false := by
  cases a with
  | fin r =>
    simp only [jsMul]
    split_ifs <;> rfl
  | inf => rfl
  | ninf => rfl
  | nan => rfl

theorem jsAdd_nonfinite_right (a b : JSNum) (hb : jsFinite b = false) :
    jsFinite (jsAdd a b) = false := by
  cases a <;> cases b <;> simp_all [jsAdd, jsFinite]

@[simp]
theorem vecFinite_vzero : vecFinite vzero = true := rfl

theorem vadd_finite (a b : Vec3) (ha : vecFinite a = true) (hb : vecFinite b = true) :
    vecFinite (vadd a b) = true := by
  obtain ⟨a1, a2, a3, rfl⟩ := (vecFinite_iff a).mp ha
  obtain ⟨b1, b2, b3, rfl⟩ := (vecFinite_iff b).mp hb
  simp [vadd]

theorem vsub_vadd_cancel (p d : Vec3) (hp : vecFinite p = true) (hd : vecFinite d = true) :
    vsub (vadd p d) p = d := by
  obtain ⟨p1, p2, p3, rfl⟩ := (vecFinite_iff p).mp hp
  obtain ⟨d1, d2, d3, rfl⟩ := (vecFinite_iff d).mp hd
  simp [vadd, vsub]

theorem fluctuationAt_finite (t τ : ℝ) (i : ℕ) :
    vecFinite (fluctuationAt (fin t) (fin τ) i) = true := by
  simp [fluctuationAt, vecFinite]

/-- With finite time, finite thermal scale, finite nonzero bending rigidity
and zero external force, the running direction stays finite. -/
theorem wlcIter_direction_finite (t τ b2 : ℝ) (hb : b2 ≠ 0) (j : ℕ) :
    vecFinite (wlcIter (fin t) (fin τ) (fin b2) vzero j).direction = true := by
  induction j with
  | zero => rfl
  | succ n ih =>
    rw [wlcIter_succ, wlcStep_direction, ← wlcIter_succ,
      wlcIter_force_zero _ _ _ hb]
    exact vadd_finite _ _
      (normalize_finite _ (vadd_finite _ _ ih (fluctuationAt_finite t τ _)))
      vecFinite_vzero

/-- Under the same conditions every chain point stays finite. -/
theorem wlcIter_points_finite (t τ b2 : ℝ) (hb : b2 ≠ 0) (j k : ℕ) :
    vecFinite ((wlcIter (fin t) (fin τ) (fin b2) vzero j).points.getD k vzero) = true := by
  induction j generalizing k with
  | zero =>
    cases k with
    | zero => rfl
    | succ m =>
      rw [List.getD_eq_default]
      · rfl
      · rw [wlcIter_points_length]
        omega
  | succ n ih =>
    rcases Nat.lt_or_ge k (n + 2) with hk | hk
    · rcases Nat.lt_or_ge k (n + 1) with hk2 | hk2
      · rw [wlcIter_points_succ, List.getD_append]
        · exact ih k
        · rw [wlcIter_points_length]
          exact hk2
      · have hkeq : k = n + 1 := by omega
        subst hkeq
        rw [wlcIter_getD_succ]
        exact vadd_finite _ _ (ih n) (wlcIter_direction_finite t τ b2 hb (n + 1))
    · rw [List.getD_eq_default]
      · rfl
      · rw [wlcIter_points_length]
        omega

/-- With bendingRigidity 0, the direction after any completed iteration has
a non-finite x component (1/0 is +Infinity and anything times it is
non-finite). -/
theorem wlcIter_direction_nonfinite_b0 (t tf : JSNum) (f : Vec3) (j : ℕ) :
    jsFinite (wlcIter t tf (fin 0) f (j + 1)).direction.x = false := by
  rw [wlcIter_succ, wlcStep_direction, wlcStep_force, jsDiv_one_zero]
  exact jsAdd_nonfinite_right _ _ (jsMul_inf_nonfinite _)

/-- With bendingRigidity 0, the point appended at each iteration is
non-finite. -/
theorem wlcIter_point_nonfinite_b0 (t tf : JSNum) (f : Vec3) (j : ℕ) :
    vecFinite ((wlcIter t tf (fin 0) f (j + 1)).points.getD (j + 1) vzero) = false := by
  rw [wlcIter_getD_succ]
  have hx := wlcIter_direction_nonfinite_b0 t tf f j
  have : jsFinite (vadd ((wlcIter t tf (fin 0) f j).points.getD j vzero)
      (wlcIter t tf (fin 0) f (j + 1)).direction).x = false :=
    jsAdd_nonfinite_right _ _ hx
  unfold vecFinite
  rw [this]
  simp

/-! The positive squared length of a nonzero vector, and the literal
three-point scenario. -/

theorem sumsq_pos (a b c : ℝ) (h : ¬(a = 0 ∧ b = 0 ∧ c = 0)) :
    0 < a * a + b * b + c * c := by
  rcases not_and_or.mp h with ha | h2
  · have : 0 < a * a := mul_self_pos.mpr ha
    nlinarith [mul_self_nonneg b, mul_self_nonneg c]
  · rcases not_and_or.mp h2 with hb | hc
    · have : 0 < b * b := mul_self_pos.mpr hb
      nlinarith [mul_self_nonneg a, mul_self_nonneg c]
    · have : 0 < c * c := mul_self_pos.mpr hc
      nlinarith [mul_self_nonneg a, mul_self_nonneg b]

/-- A vector divided by its (nonzero) Euclidean length has length one. -/
theorem normalized_unit_length (a b c : ℝ) (h : ¬(a = 0 ∧ b = 0 ∧ c = 0)) :
    Real.sqrt
      (a * (1 / Real.sqrt (a * a + b * b + c * c)) * (a * (1 / Real.sqrt (a * a + b * b + c * c))) +
       b * (1 / Real.sqrt (a * a + b * b + c * c)) * (b * (1 / Real.sqrt (a * a + b * b + c * c))) +
       c * (1 / Real.sqrt (a * a + b * b + c * c)) * (c * (1 / Real.sqrt (a * a + b * b + c * c)))) = 1 := by
  have hS : 0 < a * a + b * b + c * c := sumsq_pos a b c h
  have hl : Real.sqrt (a * a + b * b + c * c) ≠ 0 :=
    ne_of_gt (Real.sqrt_pos.mpr hS)
  have hll : Real.sqrt (a * a + b * b + c * c) * Real.sqrt (a * a + b * b + c * c) =
      a * a + b * b + c * c := Real.mul_self_sqrt hS.le
  have harg :
      a * (1 / Real.sqrt (a * a + b * b + c * c)) * (a * (1 / Real.sqrt (a * a + b * b + c * c))) +
      b * (1 / Real.sqrt (a * a + b * b + c * c)) * (b * (1 / Real.sqrt (a * a + b * b + c * c))) +
      c * (1 / Real.sqrt (a * a + b * b + c * c)) * (c * (1 / Real.sqrt (a * a + b * b + c * c))) =
        (a * a + b * b + c * c) /
          (Real.sqrt (a * a + b * b + c * c) * Real.sqrt (a * a + b * b + c * c)) := by
    field_simp
  rw [harg, hll, div_self (ne_of_gt hS), Real.sqrt_one]

/-- The literal scenario: length 3, persistenceLength 50, temperature 300,
time 0, bendingRigidity 1, noiseLevel 0, zero external force. -/
theorem calculateWLCChain_literal :
    calculateWLCChain 3 (fin 50) (fin 300) (fin 0) (fin 1) (fin 0) vzero =
      [vzero, ⟨fin 1, fin 0, fin 0⟩, ⟨fin 2, fin 0, fin 0⟩] := by
  have htf : thermalOf (fin 300) (fin 50) (fin 0) = fin 0 :=
    thermalOf_zero_noise 300 50 (by norm_num) (by norm_num)
  have h0 : wlcIter (fin 0) (fin 0) (fin 1) vzero 0 =
      ⟨[vzero], ⟨fin 1, fin 0, fin 0⟩, vzero⟩ := rfl
  have h1 : wlcIter (fin 0) (fin 0) (fin 1) vzero 1 =
      ⟨[vzero, ⟨fin 1, fin 0, fin 0⟩], ⟨fin 1, fin 0, fin 0⟩, vzero⟩ := by
    have := wlcIter_succ (fin 0) (fin 0) (fin 1) vzero 0
    rw [show (1 : ℕ) = 0 + 1 from rfl, this, h0, wlcStep_ideal]
    simp [vadd, vzero]
  have h2 : wlcIter (fin 0) (fin 0) (fin 1) vzero 2 =
      ⟨[vzero, ⟨fin 1, fin 0, fin 0⟩, ⟨fin 2, fin 0, fin 0⟩],
       ⟨fin 1, fin 0, fin 0⟩, vzero⟩ := by
    have := wlcIter_succ (fin 0) (fin 0) (fin 1) vzero 1
    rw [show (2 : ℕ) = 1 + 1 from rfl, this, h1, wlcStep_ideal]
    norm_num [vadd, vzero, List.getD]
  unfold calculateWLCChain
  rw [htf]
  norm_num [h2]

/-- Decomposing finiteness of a vector sum. -/
theorem vadd_finite_parts (a b : Vec3) (h : vecFinite (vadd a b) = true) :
    vecFinite a = true ∧ vecFinite b = true := by
  simp only [vecFinite, vadd, Bool.and_eq_true] at h ⊢
  obtain ⟨⟨hx, hy⟩, hz⟩ := h
  obtain ⟨hax, hbx⟩ := (jsAdd_finite_iff _ _).mp hx
  obtain ⟨hay, hby⟩ := (jsAdd_finite_iff _ _).mp hy
  obtain ⟨haz, hbz⟩ := (jsAdd_finite_iff _ _).mp hz
  exact ⟨⟨⟨hax, hay⟩, haz⟩, ⟨⟨hbx, hby⟩, hbz⟩⟩

/-- The thermal scale is finite whenever any fluctuation component is. -/
theorem thermal_finite_of_fluctuation (time tf : JSNum) (i : ℕ)
    (h : vecFinite (fluctuationAt time tf i) = true) : jsFinite tf = true := by
  simp only [vecFinite, Bool.and_eq_true] at h
  have hx : jsFinite (fluctuationAt time tf i).x = true := h.1.1
  unfold fluctuationAt at hx
  exact ((jsMul_finite_iff _ _).mp hx).2

/-! Claim theorems. -/

/-- C1: Geometric force decay: with finite external force and finite
nonzero bendingRigidity b, the force vector added to the running direction
at loop step i equals externalForce * (1/b)^i, because the single force
vector is scaled in place by 1/b each iteration without being reset. -/
theorem wlc_force_geometric_decay (pl temp nl t : JSNum) (b fx fy fz : ℝ)
    (hb : b ≠ 0) (i : ℕ) (hi : 1 ≤ i) :
    (wlcIter t (thermalOf temp pl nl) (fin b) ⟨fin fx, fin fy, fin fz⟩ i).force =
      ⟨fin (fx * (1 / b) ^ i), fin (fy * (1 / b) ^ i), fin (fz * (1 / b) ^ i)⟩ ∧
    (wlcIter t (thermalOf temp pl nl) (fin b) ⟨fin fx, fin fy, fin fz⟩ i).direction =
      vadd (normalize (stepInput t (thermalOf temp pl nl) (fin b) ⟨fin fx, fin fy, fin fz⟩ i))
        ⟨fin (fx * (1 / b) ^ i), fin (fy * (1 / b) ^ i), fin (fz * (1 / b) ^ i)⟩ := by
  have hforce := wlcIter_force t (thermalOf temp pl nl) b fx fy fz hb i
  refine ⟨hforce, ?_⟩
  obtain ⟨j, rfl⟩ : ∃ j, i = j + 1 := ⟨i - 1, by omega⟩
  rw [wlcIter_succ, wlcStep_direction, ← wlcIter_succ, hforce]
  congr 1

/-- C1 witness at b = 2, externalForce = (3,0,0), i = 1. -/
theorem wlc_force_geometric_decay_witness :
    (2 : ℝ) ≠ 0 ∧ (1 : ℕ) ≤ 1 ∧
    (wlcIter (fin 0) (thermalOf (fin 300) (fin 50) (fin 1)) (fin 2) ⟨fin 3, fin 0, fin 0⟩ 1).force =
      ⟨fin (3 * (1 / 2) ^ 1), fin (0 * (1 / 2) ^ 1), fin (0 * (1 / 2) ^ 1)⟩ :=
  ⟨by norm_num, le_refl 1,
   (wlc_force_geometric_decay (fin 50) (fin 300) (fin 1) (fin 0) 2 3 0 0 (by norm_num) 1 (le_refl 1)).1⟩

/-- C2: Literal scenario: calculateWLCChain(3, 50, 300, 0, 1, 0, (0,0,0))
returns exactly [(0,0,0), (1,0,0), (2,0,0)]. -/
theorem wlc_literal_scenario :
    calculateWLCChain 3 (fin 50) (fin 300) (fin 0) (fin 1) (fin 0) vzero =
      [vzero, ⟨fin 1, fin 0, fin 0⟩, ⟨fin 2, fin 0, fin 0⟩] :=
  calculateWLCChain_literal

/-- C3: Output length: for every length >= 1 and any other parameters, the
returned sequence has exactly that many points. -/
theorem wlc_output_length (n : ℕ) (hn : 1 ≤ n)
    (pl temp t b nl : JSNum) (f : Vec3) :
    (calculateWLCChain n pl temp t b nl f).length = n := by
  unfold calculateWLCChain
  rw [wlcIter_points_length]
  omega

/-- C3 witness at length 5. -/
theorem wlc_output_length_witness :
    (1 : ℕ) ≤ 5 ∧
    (calculateWLCChain 5 (fin 50) (fin 300) (fin 0) (fin 1) (fin 1) vzero).length = 5 :=
  ⟨by norm_num,
   wlc_output_length 5 (by norm_num) (fin 50) (fin 300) (fin 0) (fin 1) (fin 1) vzero⟩

/-- C4: Origin anchor: for every call the first returned point is (0,0,0). -/
theorem wlc_first_point_origin (n : ℕ) (pl temp t b nl : JSNum) (f : Vec3) :
    (calculateWLCChain n pl temp t b nl f).head? = some vzero := by
  unfold calculateWLCChain
  exact wlcIter_head _ _ _ _ _

/-- C5: Determinism: calculateWLCChain is a pure function of its seven
arguments; identical inputs give identical outputs, with no dependence on
state persisting between calls. -/
theorem wlc_deterministic (n n2 : ℕ) (pl pl2 temp temp2 t t2 b b2 nl nl2 : JSNum)
    (f f2 : Vec3)
    (h1 : n = n2) (h2 : pl = pl2) (h3 : temp = temp2) (h4 : t = t2) (h5 : b = b2)
    (h6 : nl = nl2) (h7 : f = f2) :
    calculateWLCChain n pl temp t b nl f = calculateWLCChain n2 pl2 temp2 t2 b2 nl2 f2 := by
  subst h1 h2 h3 h4 h5 h6 h7
  rfl

/-- C5 witness. -/
theorem wlc_deterministic_witness :
    calculateWLCChain 3 (fin 50) (fin 300) (fin 0) (fin 1) (fin 1) vzero =
      calculateWLCChain 3 (fin 50) (fin 300) (fin 0) (fin 1) (fin 1) vzero :=
  wlc_deterministic 3 3 (fin 50) (fin 50) (fin 300) (fin 300) (fin 0) (fin 0)
    (fin 1) (fin 1) (fin 1) (fin 1) vzero vzero rfl rfl rfl rfl rfl rfl rfl

/-- C6 counterexample: the claim says segment vectors are never unit
length, but at the literal scenario (zero force, bendingRigidity 1,
noiseLevel 0) the first segment has length exactly 1. -/
theorem wlc_segment_unit_counterexample :
    vlength (vsub
      ((calculateWLCChain 3 (fin 50) (fin 300) (fin 0) (fin 1) (fin 0) vzero).getD 1 vzero)
      ((calculateWLCChain 3 (fin 50) (fin 300) (fin 0) (fin 1) (fin 0) vzero).getD 0 vzero)) =
      fin 1 := by
  rw [calculateWLCChain_literal]
  have hgd1 : ([vzero, ⟨fin 1, fin 0, fin 0⟩, ⟨fin 2, fin 0, fin 0⟩].getD 1 vzero) =
      ⟨fin 1, fin 0, fin 0⟩ := rfl
  have hgd0 : ([vzero, ⟨fin 1, fin 0, fin 0⟩, ⟨fin 2, fin 0, fin 0⟩].getD 0 vzero) = vzero := rfl
  rw [hgd1, hgd0]
  have hsub : vsub ⟨fin 1, fin 0, fin 0⟩ vzero = ⟨fin 1, fin 0, fin 0⟩ := by
    simp [vsub, vzero]
  rw [hsub, vlength_fin]
  norm_num

/-- C6 (amended): the segment points[i] - points[i-1] equals the running
direction after the force term of step i (so its length is the post-force
magnitude of the direction, which is in general, but not always, different
from 1). -/
theorem wlc_segment_is_post_force_direction (n : ℕ) (pl temp t b nl : JSNum) (f : Vec3)
    (i : ℕ) (hi : 1 ≤ i) (hin : i < n) :
    (calculateWLCChain n pl temp t b nl f).getD i vzero =
      vadd ((calculateWLCChain n pl temp t b nl f).getD (i - 1) vzero)
        ((wlcIter t (thermalOf temp pl nl) b f i).direction) :=
  chain_segment_eq n pl temp t b nl f i hi hin

/-- C6 witness at the default-like parameters, i = 1, n = 3. -/
theorem wlc_segment_is_post_force_direction_witness :
    (1 : ℕ) ≤ 1 ∧ 1 < 3 ∧
    (calculateWLCChain 3 (fin 50) (fin 300) (fin 0) (fin 1) (fin 1) vzero).getD 1 vzero =
      vadd ((calculateWLCChain 3 (fin 50) (fin 300) (fin 0) (fin 1) (fin 1) vzero).getD 0 vzero)
        ((wlcIter (fin 0) (thermalOf (fin 300) (fin 50) (fin 1)) (fin 1) vzero 1).direction) :=
  ⟨le_refl 1, by norm_num,
   wlc_segment_is_post_force_direction 3 (fin 50) (fin 300) (fin 0) (fin 1) (fin 1) vzero 1
     (le_refl 1) (by norm_num)⟩

/-- C7: Degeneracy tolerance: with bendingRigidity 0 the generator (a
total function in this model, hence it cannot throw) still returns exactly
`length` points and every point from index 1 onward is non-finite. -/
theorem wlc_degeneracy_rigidity_zero (n : ℕ) (hn : 1 ≤ n) (pl temp t nl : JSNum) (f : Vec3) :
    (calculateWLCChain n pl temp t (fin 0) nl f).length = n ∧
    ∀ i : ℕ, 1 ≤ i → i < n →
      vecFinite ((calculateWLCChain n pl temp t (fin 0) nl f).getD i vzero) = false := by
  constructor
  · unfold calculateWLCChain
    rw [wlcIter_points_length]
    omega
  · intro i hi hin
    unfold calculateWLCChain
    rw [wlcIter_getD_stable _ _ _ _ _ _ (show i ≤ n - 1 by omega)]
    obtain ⟨j, rfl⟩ : ∃ j, i = j + 1 := ⟨i - 1, by omega⟩
    exact wlcIter_point_nonfinite_b0 t (thermalOf temp pl nl) f j

/-- C7 witness at length 3, index 1. -/
theorem wlc_degeneracy_rigidity_zero_witness :
    (1 : ℕ) ≤ 3 ∧
    (calculateWLCChain 3 (fin 50) (fin 300) (fin 0) (fin 0) (fin 1) vzero).length = 3 ∧
    vecFinite ((calculateWLCChain 3 (fin 50) (fin 300) (fin 0) (fin 0) (fin 1) vzero).getD 1 vzero) =
      false :=
  ⟨by norm_num,
   (wlc_degeneracy_rigidity_zero 3 (by norm_num) (fin 50) (fin 300) (fin 0) (fin 1) vzero).1,
   (wlc_degeneracy_rigidity_zero 3 (by norm_num) (fin 50) (fin 300) (fin 0) (fin 1) vzero).2 1
     (le_refl 1) (by norm_num)⟩

/-- Accumulated time after folding events over any starting state. -/
theorem foldl_applyEvent_time (es : List UIEvent) (s : AppState) :
    (es.foldl applyEvent s).time = s.time + (countFrames es : ℝ) * 0.01 := by
  induction es generalizing s with
  | nil => simp [countFrames]
  | cons e es ih =>
    cases e with
    | frame =>
      rw [List.foldl_cons, ih]
      show (frameTick s).time + _ = _
      simp only [frameTick, countFrames]
      push_cast
      ring
    | edit p =>
      rw [List.foldl_cons, ih]
      show (setParams p s).time + _ = _
      simp only [setParams, countFrames]

/-- C8: Time accumulation: from a fresh start, after any event sequence
the accumulated time equals (number of frame ticks) * 0.01 - each frame
tick adds exactly 0.01 and a parameter edit never changes (in particular
never decreases or resets) the time. -/
theorem wlc_time_accumulation :
    (∀ es : List UIEvent, (runEvents es).time = (countFrames es : ℝ) * 0.01) ∧
    (∀ (p : SimParams) (s : AppState), (setParams p s).time = s.time) := by
  constructor
  · intro es
    unfold runEvents
    rw [foldl_applyEvent_time]
    show (0 : ℝ) + _ = _
    rw [zero_add]
  · intro p s
    rfl

/-- C9: Unit segments under zero force: with real-valued inputs, zero
external force and nonzero bendingRigidity, at every step i >= 1 at which
the vector handed to normalize is finite and nonzero the segment
points[i] - points[i-1] has Euclidean length exactly 1. -/
theorem wlc_unit_segment_zero_force
    (pl temp t nl b : ℝ) (n i : ℕ) (hb : b ≠ 0) (hi : 1 ≤ i) (hin : i < n)
    (hfin : vecFinite (stepInput (fin t) (thermalOf (fin temp) (fin pl) (fin nl)) (fin b) vzero i) = true)
    (hnz : stepInput (fin t) (thermalOf (fin temp) (fin pl) (fin nl)) (fin b) vzero i ≠ vzero) :
    vlength (vsub
      ((calculateWLCChain n (fin pl) (fin temp) (fin t) (fin b) (fin nl) vzero).getD i vzero)
      ((calculateWLCChain n (fin pl) (fin temp) (fin t) (fin b) (fin nl) vzero).getD (i - 1) vzero)) =
      fin 1 := by
  have hfin2 := hfin
  unfold stepInput at hfin2
  have hfl := (vadd_finite_parts _ _ hfin2).2
  have htffin := thermal_finite_of_fluctuation _ _ _ hfl
  obtain ⟨τ, hτ⟩ := (jsFinite_iff _).mp htffin
  have hprev : vecFinite
      ((calculateWLCChain n (fin pl) (fin temp) (fin t) (fin b) (fin nl) vzero).getD (i - 1) vzero) =
      true := by
    unfold calculateWLCChain
    rw [hτ]
    exact wlcIter_points_finite t τ b hb (n - 1) (i - 1)
  rw [chain_segment_eq n (fin pl) (fin temp) (fin t) (fin b) (fin nl) vzero i hi hin]
  obtain ⟨j, rfl⟩ : ∃ j, i = j + 1 := ⟨i - 1, by omega⟩
  rw [hτ] at hfin hnz
  obtain ⟨a, b2, c, hv⟩ := (vecFinite_iff _).mp hfin
  have hnz2 : ¬(a = 0 ∧ b2 = 0 ∧ c = 0) := by
    rintro ⟨rfl, rfl, rfl⟩
    apply hnz
    rw [hv]
    rfl
  have hdir : (wlcIter (fin t) (fin τ) (fin b) vzero (j + 1)).direction =
      vadd (normalize (stepInput (fin t) (fin τ) (fin b) vzero (j + 1))) vzero := by
    rw [wlcIter_succ, wlcStep_direction, ← wlcIter_succ, wlcIter_force_zero _ _ _ hb]
    unfold stepInput
    norm_num
  have hdir2 : (wlcIter (fin t) (fin τ) (fin b) vzero (j + 1)).direction =
      ⟨fin (a * (1 / Real.sqrt (a * a + b2 * b2 + c * c))),
       fin (b2 * (1 / Real.sqrt (a * a + b2 * b2 + c * c))),
       fin (c * (1 / Real.sqrt (a * a + b2 * b2 + c * c)))⟩ := by
    rw [hdir, hv, normalize_fin a b2 c hnz2]
    simp [vadd, vzero]
  rw [hτ, hdir2, vsub_vadd_cancel _ _ hprev (vecFinite_mk_fin _ _ _), vlength_fin]
  exact congrArg fin (normalized_unit_length a b2 c hnz2)

/-- C9 witness: length 3, step 1, zero noise, bendingRigidity 2. -/
theorem wlc_unit_segment_zero_force_witness :
    (2 : ℝ) ≠ 0 ∧ (1 : ℕ) ≤ 1 ∧ 1 < 3 ∧
    vecFinite (stepInput (fin 5) (thermalOf (fin 100) (fin 10) (fin 0)) (fin 2) vzero 1) = true ∧
    stepInput (fin 5) (thermalOf (fin 100) (fin 10) (fin 0)) (fin 2) vzero 1 ≠ vzero ∧
    vlength (vsub
      ((calculateWLCChain 3 (fin 10) (fin 100) (fin 5) (fin 2) (fin 0) vzero).getD 1 vzero)
      ((calculateWLCChain 3 (fin 10) (fin 100) (fin 5) (fin 2) (fin 0) vzero).getD (1 - 1) vzero)) =
      fin 1 := by
  have htf : thermalOf (fin 100) (fin 10) (fin 0) = fin 0 :=
    thermalOf_zero_noise 100 10 (by norm_num) (by norm_num)
  have hval : stepInput (fin 5) (thermalOf (fin 100) (fin 10) (fin 0)) (fin 2) vzero 1 =
      ⟨fin 1, fin 0, fin 0⟩ := by
    unfold stepInput
    rw [htf, fluctuationAt_zero]
    show vadd ⟨fin 1, fin 0, fin 0⟩ vzero = ⟨fin 1, fin 0, fin 0⟩
    simp [vadd, vzero]
  have hfin : vecFinite (stepInput (fin 5) (thermalOf (fin 100) (fin 10) (fin 0)) (fin 2) vzero 1) =
      true := by
    rw [hval]
    rfl
  have hnz : stepInput (fin 5) (thermalOf (fin 100) (fin 10) (fin 0)) (fin 2) vzero 1 ≠ vzero := by
    rw [hval]
    simp [vzero, Vec3.ext_iff]
  exact ⟨by norm_num, le_refl 1, by norm_num, hfin, hnz,
    wlc_unit_segment_zero_force 10 100 5 0 2 3 1 (by norm_num) (le_refl 1) (by norm_num) hfin hnz⟩

/-- C10: Noise-off noninterference: with noiseLevel 0 and a well-defined
nonnegative temperature/persistenceLength ratio, the output does not
depend on time, temperature or persistenceLength. -/
theorem wlc_noise_off_noninterference
    (n : ℕ) (t t2 temp temp2 pl pl2 : ℝ) (b : JSNum) (f : Vec3)
    (hpl : pl ≠ 0) (hpl2 : pl2 ≠ 0) (hr : 0 ≤ temp / pl) (hr2 : 0 ≤ temp2 / pl2) :
    calculateWLCChain n (fin pl) (fin temp) (fin t) b (fin 0) f =
      calculateWLCChain n (fin pl2) (fin temp2) (fin t2) b (fin 0) f := by
  unfold calculateWLCChain
  rw [thermalOf_zero_noise temp pl hpl hr, thermalOf_zero_noise temp2 pl2 hpl2 hr2,
    wlcIter_time_irrel t t2]

/-- C10 witness: two calls with different time, temperature and
persistence length but noise off agree. -/
theorem wlc_noise_off_noninterference_witness :
    (50 : ℝ) ≠ 0 ∧ (10 : ℝ) ≠ 0 ∧ (0 : ℝ) ≤ 300 / 50 ∧ (0 : ℝ) ≤ 100 / 10 ∧
    calculateWLCChain 4 (fin 50) (fin 300) (fin 0) (fin 1) (fin 0) ⟨fin 1, fin 2, fin 3⟩ =
      calculateWLCChain 4 (fin 10) (fin 100) (fin 7) (fin 1) (fin 0) ⟨fin 1, fin 2, fin 3⟩ :=
  ⟨by norm_num, by norm_num, by norm_num, by norm_num,
   wlc_noise_off_noninterference 4 0 7 300 100 50 10 (fin 1) ⟨fin 1, fin 2, fin 3⟩
     (by norm_num) (by norm_num) (by norm_num) (by norm_num)⟩

end WLC
